import Mathlib

/-!
Verification development for the anchoring core of a blockchain anchoring
service.  The definitions below embed the TypeScript sources of the
repository.  Components whose implementation is absent from the snapshot
(the anchor service, the request repository and the Merkle builder: only
their test suite is present) are modelled from the specification; each such
definition says so in its doc comment.
-/

namespace Ceramic

/-- Modelled from the spec: the RequestStatus enum (request-status.ts is not
in the snapshot).  Status is one of PENDING, READY, PROCESSING, COMPLETED,
FAILED; the test suite uses exactly these five values. -/
inductive RequestStatus
  | PENDING
  | READY
  | PROCESSING
  | COMPLETED
  | FAILED
deriving DecidableEq

/-- A status is terminal when it is COMPLETED or FAILED. -/
def RequestStatus.isTerminal : RequestStatus → Bool
  | RequestStatus.COMPLETED => true
  | RequestStatus.FAILED => true
  | _ => false

namespace Ctx

/-- An object held by the service-locator context: its constructor (class)
name plus an opaque identity distinguishing distinct instances. -/
structure Obj where
  className : String
  objId : Nat
deriving DecidableEq

/-- The context state: the instances map of the Context class, keyed by
class name. -/
def Context := String → Option Obj

/-- A fresh context: the constructor initialises an empty instances map. -/
def Context.empty : Context := fun _ => none

/-- Embeds Context.register: the instance is stored under the name of its
constructor, overwriting any previous entry for that name. -/
def Context.register (c : Context) (inst : Obj) : Context :=
  fun n => if n = inst.className then some inst else c n

/-- Embeds Context.lookup: reads the instances map. -/
def Context.lookup (c : Context) (name : String) : Option Obj :=
  c name

/-- Structural test that a filename ends in .map (the library string
helper is opaque to kernel reduction, so the suffix test is spelled out on
the character list, reversed). -/
def isMapFile (fn : String) : Bool :=
  decide (fn.data.reverse.take 4 = ['p', 'a', 'm', '.'])

/-- Embeds Context.build on a flat directory listing: files whose name ends
in .map are skipped, every other file contributes one freshly constructed
instance which is registered. -/
def Context.build (c : Context) (files : List (String × Obj)) : Context :=
  files.foldl (fun acc f => if isMapFile f.fst then acc else acc.register f.snd) c

end Ctx

namespace Chain

/-- A CID as consumed by the blockchain service, carried by its base16
(hexadecimal) string representation. -/
structure CID where
  base16 : String
deriving DecidableEq

/-- Embeds cid.toBaseEncodedString applied with base16. -/
def CID.toBaseEncodedString (c : CID) : String := c.base16

/-- The transaction request handed to the ethers wallet. -/
structure TransactionRequest where
  toAddr : String
  data : String
  gasLimit : Nat
  gasPrice : Nat
deriving DecidableEq

/-- The response returned by wallet.sendTransaction. -/
structure TransactionResponse where
  hash : String
  chainId : Nat

/-- The receipt returned by provider.waitForTransaction. -/
structure TxReceipt where
  transactionHash : String
  blockNumber : Nat
  blockHash : String

/-- The block returned by provider.getBlock. -/
structure Block where
  timestamp : Nat

/-- Embeds models/transaction: the Transaction record produced by the
blockchain service. -/
structure Transaction where
  chainId : Nat
  txHash : String
  blockNumber : Nat
  blockTimestamp : Nat
deriving DecidableEq

/-- The ethers environment seen by BlockchainService.sendTransaction: the
wallet address and configuration, and the provider behaviour. -/
structure EthEnv where
  walletAddress : String
  gasLimit : Nat
  gasPrice : Nat
  send : TransactionRequest → TransactionResponse
  waitForTransaction : String → TxReceipt
  getBlock : String → Block

/-- The transaction request assembled by sendTransaction: sent to the
wallet address itself, with the root CID hex-encoded and prefixed 0x as the
data field. -/
def txRequestOf (env : EthEnv) (rootCid : CID) : TransactionRequest :=
  { toAddr := env.walletAddress
    data := "0x" ++ rootCid.toBaseEncodedString
    gasLimit := env.gasLimit
    gasPrice := env.gasPrice }

/-- Embeds BlockchainService.sendTransaction: sends the request, waits for
the receipt, fetches the mined block, and assembles the Transaction record
from the response chain id, the receipt hash and block number, and the
block timestamp. -/
def sendTransaction (env : EthEnv) (rootCid : CID) : Transaction :=
  let txResponse := env.send (txRequestOf env rootCid)
  let txReceipt := env.waitForTransaction txResponse.hash
  let block := env.getBlock txReceipt.blockHash
  ⟨txResponse.chainId, txReceipt.transactionHash, txReceipt.blockNumber, block.timestamp⟩

end Chain

namespace Models

/-- Embeds the Request entity of src/models/request.ts: the declared
columns are id (uuid primary key), status, cid, docId (column doc_id),
createdAt and updatedAt. -/
structure Request where
  id : String
  status : RequestStatus
  cid : String
  docId : String
  createdAt : Nat
  updatedAt : Nat
deriving DecidableEq

/-- The property names declared on the Request entity of
src/models/request.ts, in source order. -/
def requestFields : List String :=
  ["id", "status", "cid", "docId", "createdAt", "updatedAt"]

/-- The unique constraints declared on the Request entity: a single
constraint on the cid column. -/
def requestUniqueConstraints : List (List String) :=
  [["cid"]]

/-- The Request properties assigned by the snapshot's own anchor-service
test suite when it constructs a Request (part_000: request.cid,
request.streamId, request.status, request.message, request.pinned). -/
def testAssignedRequestFields : List String :=
  ["cid", "streamId", "status", "message", "pinned"]

end Models

namespace Core

/-- Modelled from the spec: the durable Request record as used by the
anchoring core and its test suite (the current models/request.js of the
service is not in the snapshot); dates are modelled as naturals. -/
structure Request where
  id : Nat
  cid : String
  streamId : String
  status : RequestStatus
  message : String
  pinned : Bool
  createdAt : Nat
  updatedAt : Nat
deriving DecidableEq

/-- Commit types appearing in a stream log. -/
inductive CommitType
  | GENESIS
  | SIGNED
  | ANCHOR
deriving DecidableEq

/-- Anchor status of a stream as reported by the stream service. -/
inductive AnchorStatus
  | PENDING
  | ANCHORED
deriving DecidableEq

/-- One entry of a stream log: a commit CID and its type. -/
structure LogEntry where
  cid : String
  ctype : CommitType
deriving DecidableEq

/-- A stream as reported by the stream service: an ordered commit log plus
the anchor status of the stream state. -/
structure Stream where
  log : List LogEntry
  anchorStatus : AnchorStatus
deriving DecidableEq

/-- The CID of the stream tip: the last log entry. -/
def Stream.tipCid (s : Stream) : String :=
  ((s.log.getLast?).map LogEntry.cid).getD ""

/-- Index of a CID in the stream log, if present. -/
def Stream.cidIndex (s : Stream) (cid : String) : Option Nat :=
  s.log.findIdx? (fun e => e.cid = cid)

/-- Positions of anchor commits in the log: entries typed ANCHOR, and the
tip position when the stream state reports status ANCHORED. -/
def Stream.anchorPositions (s : Stream) : List Nat :=
  (List.range s.log.length).filter
      (fun j => ((s.log[j]?).map LogEntry.ctype) = some CommitType.ANCHOR)
    ++ (if s.anchorStatus = AnchorStatus.ANCHORED ∧ s.log ≠ [] then [s.log.length - 1] else [])

/-- A request CID counts as already anchored when it appears in the log at
or before an anchor commit. -/
def Stream.alreadyAnchored (s : Stream) (cid : String) : Bool :=
  match s.cidIndex cid with
  | none => false
  | some i => s.anchorPositions.any (fun j => i ≤ j)

/-- Modelled from the spec: the per-cycle Candidate object.  The field
anchorRequestId records the id of the newest accepted request, the one the
Anchor row will reference. -/
structure Candidate where
  streamId : String
  cid : String
  acceptedRequests : List Request
  rejectedRequests : List Request
  anchorRequestId : Nat
deriving DecidableEq

/-- One persisted status update of the selector: request id, new status and
message. -/
def StatusUpdate : Type := Nat × RequestStatus × String

instance : DecidableEq StatusUpdate := by
  unfold StatusUpdate
  infer_instance

/-- The accepted request whose CID sits deepest in the stream log. -/
def newestAccepted (s : Stream) (reqs : List Request) : Option Request :=
  reqs.foldl
    (fun acc r =>
      match acc with
      | none => some r
      | some b =>
        if (s.cidIndex b.cid).getD 0 < (s.cidIndex r.cid).getD 0 then some r else some b)
    none

/-- Completion message used for anchored requests. -/
def completedMsg : String := "CID successfully anchored."

/-- Failure message used for requests with no readable version. -/
def noVersionMsg : String := "No readable version found"

/-- Modelled from the spec: the CandidateSelector per-bucket step (spec 4.2
steps 2 to 5; the selector implementation is not in the snapshot).  Requests
already anchored in the loaded stream are completed without anchoring;
requests whose CID is not in the log fail; the remaining requests are
accepted and the candidate CID is the stream tip. -/
def processBucket (streams : String → Option Stream) (sid : String) (reqs : List Request) :
    Option Candidate × List StatusUpdate :=
  match streams sid with
  | none => (none, reqs.map (fun r => (r.id, RequestStatus.FAILED, noVersionMsg)))
  | some s =>
    let completed := reqs.filter (fun r => s.alreadyAnchored r.cid)
    let rest := reqs.filter (fun r => ! s.alreadyAnchored r.cid)
    let failed := rest.filter (fun r => (s.cidIndex r.cid).isNone)
    let accepted := rest.filter (fun r => (s.cidIndex r.cid).isSome)
    let ups := completed.map (fun r => (r.id, RequestStatus.COMPLETED, completedMsg))
      ++ failed.map (fun r => (r.id, RequestStatus.FAILED, noVersionMsg))
    if accepted = [] then (none, ups)
    else
      (some ⟨sid, s.tipCid, accepted, failed, ((newestAccepted s accepted).map Request.id).getD 0⟩,
        ups)

/-- Stream ids of a request list, in order of first appearance. -/
def streamIds (reqs : List Request) : List String :=
  reqs.foldl (fun acc r => if r.streamId ∈ acc then acc else acc ++ [r.streamId]) []

/-- The bucket of a stream id: the requests on that stream. -/
def bucketOf (reqs : List Request) (sid : String) : List Request :=
  reqs.filter (fun r => r.streamId = sid)

/-- Earliest creation time among the accepted requests of a candidate. -/
def Candidate.minCreatedAt (c : Candidate) : Nat :=
  match c.acceptedRequests.map Request.createdAt with
  | [] => 0
  | x :: xs => xs.foldl Nat.min x

/-- Lexicographic comparison of character-code lists, used for the stream
id tie-break. -/
def natListLE : List Nat → List Nat → Bool
  | [], _ => true
  | _ :: _, [] => false
  | a :: as, b :: bs => if a < b then true else if b < a then false else natListLE as bs

/-- String comparison by character codes. -/
def strLE (a b : String) : Bool :=
  natListLE (a.data.map Char.toNat) (b.data.map Char.toNat)

/-- Stream-level FIFO order on candidates: earliest accepted creation time
first, stream id as tie-break. -/
def candLE (a b : Candidate) : Prop :=
  a.minCreatedAt < b.minCreatedAt ∨
    (a.minCreatedAt = b.minCreatedAt ∧ strLE a.streamId b.streamId = true)

instance : DecidableRel candLE := fun a b => by
  unfold candLE
  infer_instance

instance : IsTrans Candidate candLE := by
  constructor
  have htr : ∀ as bs cs : List Nat,
      natListLE as bs = true → natListLE bs cs = true → natListLE as cs = true := by
    intro as
    induction as with
    | nil =>
      intro bs cs h1 h2
      rfl
    | cons a as ih =>
      intro bs cs h1 h2
      cases bs with
      | nil => simp [natListLE] at h1
      | cons b bs =>
        cases cs with
        | nil => simp [natListLE] at h2
        | cons c cs =>
          simp only [natListLE] at h1 h2 ⊢
          split_ifs at h1 h2 ⊢ <;>
            first
            | rfl
            | (exfalso; omega)
            | exact ih bs cs h1 h2
  intro a b c hab hbc
  rcases hab with h1 | ⟨h1, h1s⟩ <;> rcases hbc with h2 | ⟨h2, h2s⟩
  · exact Or.inl (h1.trans h2)
  · exact Or.inl (by omega)
  · exact Or.inl (by omega)
  · exact Or.inr ⟨h1.trans h2, htr _ _ _ h1s h2s⟩

instance : IsTotal Candidate candLE := by
  constructor
  have hto : ∀ as bs : List Nat, natListLE as bs = true ∨ natListLE bs as = true := by
    intro as
    induction as with
    | nil =>
      intro bs
      left
      rfl
    | cons a as ih =>
      intro bs
      cases bs with
      | nil =>
        right
        rfl
      | cons b bs =>
        simp only [natListLE]
        rcases Nat.lt_trichotomy a b with h | h | h
        · left
          rw [if_pos h]
        · subst h
          rcases ih bs with h2 | h2
          · left
            rw [if_neg (lt_irrefl a), if_neg (lt_irrefl a)]
            exact h2
          · right
            rw [if_neg (lt_irrefl a), if_neg (lt_irrefl a)]
            exact h2
        · right
          rw [if_pos h]
  intro a b
  rcases Nat.lt_trichotomy a.minCreatedAt b.minCreatedAt with h | h | h
  · exact Or.inl (Or.inl h)
  · rcases hto (a.streamId.data.map Char.toNat) (b.streamId.data.map Char.toNat) with h2 | h2
    · exact Or.inl (Or.inr ⟨h, h2⟩)
    · exact Or.inr (Or.inr ⟨h.symm, h2⟩)
  · exact Or.inr (Or.inl h)

/-- Candidates ordered stream-level FIFO. -/
def orderCandidates (cands : List Candidate) : List Candidate :=
  List.insertionSort candLE cands

/-- Modelled from the spec: the anchor limit step (spec 4.2 step 7): a zero
limit keeps all candidates, a positive limit keeps the first L. -/
def applyLimit (limit : Nat) (cands : List Candidate) : List Candidate :=
  if limit = 0 then cands else cands.take limit

/-- Per-bucket selector results over all stream buckets. -/
def bucketResults (streams : String → Option Stream) (reqs : List Request) :
    List (Option Candidate × List StatusUpdate) :=
  (streamIds reqs).map (fun sid => processBucket streams sid (bucketOf reqs sid))

/-- Candidates produced by the buckets, before ordering and limit. -/
def rawCandidates (streams : String → Option Stream) (reqs : List Request) : List Candidate :=
  (bucketResults streams reqs).filterMap Prod.fst

/-- Status updates persisted by the selector (completions without anchoring
and validation failures). -/
def selectorUpdates (streams : String → Option Stream) (reqs : List Request) :
    List StatusUpdate :=
  ((bucketResults streams reqs).map Prod.snd).flatten

/-- Modelled from the spec: CandidateSelector.select (spec 4.2): bucket the
requests by stream, resolve each bucket against the stream service, order
the surviving candidates stream-level FIFO and apply the anchor limit;
rejection and pre-anchored-completion updates are returned for
persistence. -/
def findCandidates (streams : String → Option Stream) (reqs : List Request) (limit : Nat) :
    List Candidate × List StatusUpdate :=
  (applyLimit limit (orderCandidates (rawCandidates streams reqs)),
    selectorUpdates streams reqs)

/-- Update fields of RequestStore.updateRequests: a status and an optional
message. -/
structure UpdateFields where
  status : RequestStatus
  message : Option String

/-- Modelled from the spec: RequestStore.updateRequests (spec 4.1): batch
update by id, skipped for every row whose current status is terminal
(at-most-once completion). -/
def updateRequests (f : UpdateFields) (ids : List Nat) (db : List Request) : List Request :=
  db.map (fun r =>
    if r.id ∈ ids ∧ r.status.isTerminal = false then
      { r with status := f.status, message := f.message.getD r.message }
    else r)

/-- Applies one selector status update through updateRequests. -/
def applyUpdate (db : List Request) (u : StatusUpdate) : List Request :=
  updateRequests ⟨u.2.1, some u.2.2⟩ [u.1] db

/-- Applies all selector status updates in order. -/
def applySelectorUpdates (ups : List StatusUpdate) (db : List Request) : List Request :=
  ups.foldl applyUpdate db

/-- RequestStore.findByStatus. -/
def findByStatus (st : RequestStatus) (db : List Request) : List Request :=
  db.filter (fun r => r.status = st)

/-- RequestStore.countByStatus. -/
def countByStatus (st : RequestStatus) (db : List Request) : Nat :=
  (findByStatus st db).length

/-- Request order used by promotion: oldest createdAt first, id as
tie-break. -/
def reqLE (a b : Request) : Prop :=
  a.createdAt < b.createdAt ∨ (a.createdAt = b.createdAt ∧ a.id ≤ b.id)

instance : DecidableRel reqLE := fun a b => by
  unfold reqLE
  infer_instance

/-- Requests sorted oldest first. -/
def sortByCreated (reqs : List Request) : List Request :=
  List.insertionSort reqLE reqs

/-- Static configuration of the core plus the current time of the cycle. -/
structure CoreConfig where
  minStreamCount : Nat
  streamLimit : Nat
  anchorLimit : Nat
  readyRetryIntervalMS : Nat
  now : Nat

/-- Modelled from the spec: RequestStore.findAndMarkReady (spec 4.1): if at
least minStreamCount distinct streams have PENDING requests, the oldest
PENDING rows of up to streamLimit streams (all of them when streamLimit is
zero) move to READY; independently, READY rows staler than the retry
interval are re-included with their updatedAt bumped.  Returns the touched
rows and the new table. -/
def findAndMarkReady (cfg : CoreConfig) (db : List Request) :
    List Request × List Request :=
  let pending := sortByCreated (findByStatus RequestStatus.PENDING db)
  let pendingStreams := streamIds pending
  let chosenStreams :=
    if cfg.streamLimit = 0 then pendingStreams else pendingStreams.take cfg.streamLimit
  let promoted :=
    if cfg.minStreamCount ≤ pendingStreams.length then
      pending.filter (fun r => r.streamId ∈ chosenStreams)
    else []
  let stale := db.filter (fun r =>
    r.status = RequestStatus.READY ∧ r.updatedAt + cfg.readyRetryIntervalMS < cfg.now)
  let promotedIds := promoted.map Request.id
  let staleIds := stale.map Request.id
  let db1 := db.map (fun r =>
    if r.status = RequestStatus.PENDING ∧ r.id ∈ promotedIds then
      { r with status := RequestStatus.READY, updatedAt := cfg.now }
    else if r.status = RequestStatus.READY ∧ r.id ∈ staleIds then
      { r with updatedAt := cfg.now }
    else r)
  (promoted.map (fun r => { r with status := RequestStatus.READY, updatedAt := cfg.now })
      ++ stale.map (fun r => { r with updatedAt := cfg.now }),
    db1)

/-- Big-endian binary digits of i, padded to d digits. -/
def binDigits : Nat → Nat → List Nat
  | 0, _ => []
  | d + 1, i => (i / 2 ^ d) :: binDigits d (i % 2 ^ d)

/-- A Merkle path string: the bits separated by slashes. -/
def pathString (bits : List Nat) : String :=
  String.intercalate "/" (bits.map (fun b => if b = 0 then "0" else "1"))

/-- Modelled from the spec: the MerkleBuilder leaf layout (spec 4.3): a
left-packed balanced binary tree; at depth d+1 the first 2 to the d
candidates descend the left edge (bit 0) and the rest the right edge
(bit 1); each leaf records the bit path from the root. -/
def assignPaths : Nat → List Candidate → List Nat → List (Candidate × List Nat)
  | 0, [], _ => []
  | 0, c :: _, pre => [(c, pre)]
  | d + 1, cands, pre =>
    assignPaths d (cands.take (2 ^ d)) (pre ++ [0])
      ++ assignPaths d (cands.drop (2 ^ d)) (pre ++ [1])

/-- Fuel-driven ceiling base-2 logarithm (structurally recursive so that it
evaluates by kernel reduction). -/
def merkleDepthGo : Nat → Nat → Nat
  | 0, _ => 0
  | fuel + 1, n => if n ≤ 1 then 0 else merkleDepthGo fuel ((n + 1) / 2) + 1

/-- The Merkle tree depth for n candidates: the ceiling of log2 n. -/
def merkleDepth (n : Nat) : Nat := merkleDepthGo n n

/-- The leaves of the Merkle tree over the ordered candidates, each paired
with its path string. -/
def merkleLeaves (cands : List Candidate) : List (Candidate × String) :=
  (assignPaths (merkleDepth cands.length) cands []).map (fun p => (p.fst, pathString p.snd))

/-- Bottom-up root hash of the left-packed tree: interior nodes hash their
children, single-child levels pass the value through. -/
def rootAux (hash : String → String → String) : Nat → List String → String
  | 0, cs => (cs.head?).getD ""
  | d + 1, cs =>
    if cs.length ≤ 2 ^ d then rootAux hash d cs
    else hash (rootAux hash d (cs.take (2 ^ d))) (rootAux hash d (cs.drop (2 ^ d)))

/-- The Merkle root CID over the candidate CIDs. -/
def merkleRoot (hash : String → String → String) (cands : List Candidate) : String :=
  rootAux hash (merkleDepth cands.length) (cands.map Candidate.cid)

/-- The anchor-commit object stored per leaf. -/
structure AnchorCommit where
  prev : String
  proof : String
  path : String
deriving DecidableEq

/-- The durable Anchor record of one emitted anchor commit. -/
structure Anchor where
  requestId : Nat
  proofCid : String
  path : String
  cid : String
deriving DecidableEq

/-- The content store and pub/sub behaviour seen by the emitter. -/
structure EmitEnv where
  store : AnchorCommit → Except String String
  publish : String → String → Except String Unit

/-- Modelled from the spec: the AnchorEmitter (spec 4.4): per leaf, build
the anchor-commit object from the candidate CID, the proof CID and the leaf
path, store it, publish the update; a leaf whose store or publish fails is
dropped; each emitted leaf yields its candidate paired with the Anchor
record. -/
def emitAnchorCommits (env : EmitEnv) (proofCid : String)
    (leaves : List (Candidate × String)) : List (Candidate × Anchor) :=
  leaves.filterMap (fun l =>
    match env.store ⟨l.fst.cid, proofCid, l.snd⟩ with
    | Except.error _ => none
    | Except.ok anchorCid =>
      match env.publish l.fst.streamId anchorCid with
      | Except.error _ => none
      | Except.ok _ => some (l.fst, ⟨l.fst.anchorRequestId, proofCid, l.snd, anchorCid⟩))

/-- Sets the pinned flag of the given requests. -/
def setPinned (ids : List Nat) (db : List Request) : List Request :=
  db.map (fun r => if r.id ∈ ids then { r with pinned := true } else r)

/-- Ids of all accepted requests of a candidate list. -/
def acceptedIds (cands : List Candidate) : List Nat :=
  (cands.map (fun c => c.acceptedRequests.map Request.id)).flatten

/-- Modelled from the spec: persisting the anchor result (spec 4.5 step 8):
the accepted requests of every candidate whose anchor commit was emitted
are marked COMPLETED and pinned; candidates whose emission failed leave
their requests untouched. -/
def persistAnchorResult (emitted : List (Candidate × Anchor)) (db : List Request) :
    List Request :=
  setPinned (acceptedIds (emitted.map Prod.fst))
    (updateRequests ⟨RequestStatus.COMPLETED, some completedMsg⟩
      (acceptedIds (emitted.map Prod.fst)) db)

/-- External collaborators of one anchoring cycle. -/
structure CoreEnv where
  streams : String → Option Stream
  sendTransaction : String → Except String Chain.Transaction
  storeProof : Chain.Transaction → String → String
  emit : EmitEnv
  hashNode : String → String → String

/-- Processing message used when accepted requests enter a cycle. -/
def processingMsg : String := "Request is processing."

/-- Modelled from the spec: AnchorCoordinator.anchorRequests (spec 4.5):
load the READY batch (when none exists, promote PENDING rows through
findAndMarkReady, the behaviour exercised by the snapshot's transaction
failure test), select candidates, persist the selector updates, mark the
accepted requests PROCESSING, build the Merkle tree, send the transaction,
emit the anchor commits and persist the outcome.  A transaction failure
propagates as an error. -/
def anchorRequests (cfg : CoreConfig) (env : CoreEnv) (db : List Request) :
    Except String (List Request × List Anchor) :=
  let ready := findByStatus RequestStatus.READY db
  let pr := findAndMarkReady cfg db
  let batch := if ready = [] then pr.fst else ready
  let db1 := if ready = [] then pr.snd else db
  if batch = [] then Except.ok (db1, [])
  else
    let sel := findCandidates env.streams batch cfg.anchorLimit
    let db2 := applySelectorUpdates sel.snd db1
    if sel.fst = [] then Except.ok (db2, [])
    else
      let db3 := updateRequests ⟨RequestStatus.PROCESSING, some processingMsg⟩
        (acceptedIds sel.fst) db2
      match env.sendTransaction (merkleRoot env.hashNode sel.fst) with
      | Except.error e => Except.error e
      | Except.ok tx =>
        let proofCid := env.storeProof tx (merkleRoot env.hashNode sel.fst)
        let emitted := emitAnchorCommits env.emit proofCid (merkleLeaves sel.fst)
        Except.ok (persistAnchorResult emitted db3, emitted.map Prod.snd)

/-- The outcome of one cycle run against the durable table. -/
structure CycleResult where
  outcome : Except String Unit
  db : List Request
  anchors : List Anchor

/-- One cycle against durable state: the enclosing database transaction
commits the new table on success and rolls every change back on an error
(spec section 8 scenario 2: on transaction failure the requests stay
PENDING). -/
def runCycle (cfg : CoreConfig) (env : CoreEnv) (db : List Request) : CycleResult :=
  match anchorRequests cfg env db with
  | Except.error e => ⟨Except.error e, db, []⟩
  | Except.ok p => ⟨Except.ok (), p.fst, p.snd⟩

/-- Four demonstration candidates, filling the depth-2 tree exactly. -/
def demoCands : List Candidate :=
  [⟨"s0", "c0", [], [], 0⟩, ⟨"s1", "c1", [], [], 1⟩,
   ⟨"s2", "c2", [], [], 2⟩, ⟨"s3", "c3", [], [], 3⟩]

/-- Helper building a request record with the default pending message. -/
def mkReq (i : Nat) (cid sid : String) (st : RequestStatus) (created : Nat) : Request :=
  ⟨i, cid, sid, st, "Request is pending.", false, created, created⟩

/-- A stream whose log holds exactly one genesis commit with the given
CID. -/
def singleStream (cid : String) : Stream :=
  ⟨[⟨cid, CommitType.GENESIS⟩], AnchorStatus.PENDING⟩

/-- Eight pending requests on eight distinct streams, created in order. -/
def db8 : List Request :=
  [mkReq 1 "c1" "sa" RequestStatus.PENDING 1, mkReq 2 "c2" "sb" RequestStatus.PENDING 2,
   mkReq 3 "c3" "sc" RequestStatus.PENDING 3, mkReq 4 "c4" "sd" RequestStatus.PENDING 4,
   mkReq 5 "c5" "se" RequestStatus.PENDING 5, mkReq 6 "c6" "sf" RequestStatus.PENDING 6,
   mkReq 7 "c7" "sg" RequestStatus.PENDING 7, mkReq 8 "c8" "sh" RequestStatus.PENDING 8]

/-- The stream service view over the eight scenario streams: each stream
holds exactly the genesis commit of its request. -/
def streams8 : String → Option Stream := fun sid =>
  if sid = "sa" then some (singleStream "c1")
  else if sid = "sb" then some (singleStream "c2")
  else if sid = "sc" then some (singleStream "c3")
  else if sid = "sd" then some (singleStream "c4")
  else if sid = "se" then some (singleStream "c5")
  else if sid = "sf" then some (singleStream "c6")
  else if sid = "sg" then some (singleStream "c7")
  else if sid = "sh" then some (singleStream "c8")
  else none

/-- An all-success cycle environment over the eight scenario streams. -/
def env8 : CoreEnv :=
  { streams := streams8
    sendTransaction := fun root => Except.ok ⟨1337, "0xtx" ++ root, 10, 99⟩
    storeProof := fun _ root => "proof-" ++ root
    emit :=
      { store := fun a => Except.ok ("anchor-" ++ a.prev)
        publish := fun _ _ => Except.ok () }
    hashNode := fun l r => "h(" ++ l ++ "," ++ r ++ ")" }

/-- Scenario configuration: minimum of four streams, unlimited promotion,
anchor limit four. -/
def cfg8 : CoreConfig := ⟨4, 0, 4, 1000, 100⟩

/-- The environment whose blockchain client always rejects with the
transaction failure message. -/
def envTxFail : CoreEnv :=
  { env8 with sendTransaction := fun _ => Except.error "Failed to send transaction!" }

/-- Four pending requests on four distinct streams. -/
def dbTx : List Request := db8.take 4

/-- A completed request used to exercise the terminal-state guard. -/
def reqDone : Request :=
  ⟨21, "cd", "sd0", RequestStatus.COMPLETED, completedMsg, true, 1, 2⟩

/-- A table holding one completed and one pending request. -/
def dbTerm : List Request := [reqDone, mkReq 22 "ce" "se0" RequestStatus.PENDING 3]

/-- First request on the shared stream of the tip-selection scenario. -/
def reqY0 : Request := mkReq 10 "r0" "sy" RequestStatus.READY 1

/-- Second request on the shared stream, extending the first. -/
def reqY1 : Request := mkReq 11 "r1" "sy" RequestStatus.READY 2

/-- The shared stream: the second request extends the first, so the tip is
the second CID. -/
def streamY : Stream :=
  ⟨[⟨"r0", CommitType.GENESIS⟩, ⟨"r1", CommitType.SIGNED⟩], AnchorStatus.PENDING⟩

/-- Stream service view exposing only the shared stream. -/
def streamsY : String → Option Stream :=
  fun sid => if sid = "sy" then some streamY else none

/-- A request whose CID was already anchored externally. -/
def reqAnch : Request := mkReq 31 "rc" "sx" RequestStatus.READY 1

/-- A stream whose log anchors the request CID: the request genesis commit
is followed by an ANCHOR commit. -/
def streamX : Stream :=
  ⟨[⟨"rc", CommitType.GENESIS⟩, ⟨"n1", CommitType.SIGNED⟩,
    ⟨"ac", CommitType.ANCHOR⟩, ⟨"n2", CommitType.SIGNED⟩], AnchorStatus.PENDING⟩

/-- Stream service view exposing only the already-anchored stream. -/
def streamsX : String → Option Stream :=
  fun sid => if sid = "sx" then some streamX else none

/-- Four candidates ready for emission, one accepted request each. -/
def cands4 : List Candidate :=
  [⟨"sa", "c1", [mkReq 1 "c1" "sa" RequestStatus.PROCESSING 1], [], 1⟩,
   ⟨"sb", "c2", [mkReq 2 "c2" "sb" RequestStatus.PROCESSING 2], [], 2⟩,
   ⟨"sc", "c3", [mkReq 3 "c3" "sc" RequestStatus.PROCESSING 3], [], 3⟩,
   ⟨"sd", "c4", [mkReq 4 "c4" "sd" RequestStatus.PROCESSING 4], [], 4⟩]

/-- The first leaf of the four-candidate tree. -/
def leafSa : Candidate × String :=
  (⟨"sa", "c1", [mkReq 1 "c1" "sa" RequestStatus.PROCESSING 1], [], 1⟩, "0/0")

/-- The four candidate requests, already marked PROCESSING in the table. -/
def dbProc : List Request :=
  [mkReq 1 "c1" "sa" RequestStatus.PROCESSING 1, mkReq 2 "c2" "sb" RequestStatus.PROCESSING 2,
   mkReq 3 "c3" "sc" RequestStatus.PROCESSING 3, mkReq 4 "c4" "sd" RequestStatus.PROCESSING 4]

/-- The candidate produced for the shared stream: tip CID of the second
request, both requests accepted. -/
def candY : Candidate := ⟨"sy", "r1", [reqY0, reqY1], [], 11⟩

/-- The candidate of the fifth scenario stream, cut off by an anchor limit
of four. -/
def candSe : Candidate := ⟨"se", "c5", [mkReq 5 "c5" "se" RequestStatus.PENDING 5], [], 5⟩

/-- An emitter whose store fails on the second candidate and whose pub/sub
fails on the fourth stream, mirroring the emission failure scenario. -/
def emitEnvSel : EmitEnv :=
  { store := fun a =>
      if a.prev = "c2" then Except.error "storing record failed"
      else Except.ok ("anchor-" ++ a.prev)
    publish := fun sid _ =>
      if sid = "sd" then Except.error "publishing update failed" else Except.ok () }

end Core

end Ceramic

open Ceramic

/-! ## Merkle path lemmas -/

theorem lem_assignPaths_length (d : Nat) :
    ∀ (cands : List Core.Candidate) (pre : List Nat),
      (Core.assignPaths d cands pre).length = min cands.length (2 ^ d) := by
  induction d with
  | zero =>
    intro cands pre
    cases cands <;> simp [Core.assignPaths]
  | succ d ih =>
    intro cands pre
    have h2 : 2 ^ (d + 1) = 2 ^ d + 2 ^ d := by
      rw [pow_succ]; omega
    simp only [Core.assignPaths, List.length_append, ih, List.length_take, List.length_drop]
    omega

theorem lem_assignPaths_get (d : Nat) :
    ∀ (cands : List Core.Candidate) (pre : List Nat) (i : Nat),
      i < cands.length → i < 2 ^ d →
      (Core.assignPaths d cands pre)[i]? =
        cands[i]?.map (fun c => (c, pre ++ Core.binDigits d i)) := by
  induction d with
  | zero =>
    intro cands pre i hi h2
    have hi0 : i = 0 := by simpa using h2
    subst hi0
    cases cands with
    | nil => simp at hi
    | cons c cs => simp [Core.assignPaths, Core.binDigits]
  | succ d ih =>
    intro cands pre i hi h2
    have h2s : 2 ^ (d + 1) = 2 ^ d + 2 ^ d := by
      rw [pow_succ]; omega
    have hL : (Core.assignPaths d (cands.take (2 ^ d)) (pre ++ [0])).length
        = min cands.length (2 ^ d) := by
      rw [lem_assignPaths_length, List.length_take]
      omega
    simp only [Core.assignPaths]
    by_cases hc : i < 2 ^ d
    · rw [List.getElem?_append, hL, if_pos (by omega)]
      rw [ih (cands.take (2 ^ d)) (pre ++ [0]) i (by rw [List.length_take]; omega) hc]
      rw [List.getElem?_take, if_pos hc]
      have hdiv : i / 2 ^ d = 0 := Nat.div_eq_of_lt hc
      have hmod : i % 2 ^ d = i := Nat.mod_eq_of_lt hc
      simp [Core.binDigits, hdiv, hmod]
    · have hp : 2 ^ d ≤ i := by omega
      rw [List.getElem?_append, hL, if_neg (by omega)]
      have hmin : min cands.length (2 ^ d) = 2 ^ d := by omega
      rw [hmin]
      rw [ih (cands.drop (2 ^ d)) (pre ++ [1]) (i - 2 ^ d)
        (by rw [List.length_drop]; omega) (by omega)]
      rw [List.getElem?_drop]
      have hix : 2 ^ d + (i - 2 ^ d) = i := by omega
      rw [hix]
      have hdiv : i / 2 ^ d = 1 := Nat.div_eq_of_lt_le (by omega) (by omega)
      have hmod : i % 2 ^ d = i - 2 ^ d := by
        rw [Nat.mod_eq_sub_mod hp, Nat.mod_eq_of_lt (by omega)]
      simp [Core.binDigits, hdiv, hmod]

theorem lem_merkleDepthGo_le_pow (fuel : Nat) :
    ∀ n : Nat, n ≤ fuel + 1 → n ≤ 2 ^ Core.merkleDepthGo fuel n := by
  induction fuel with
  | zero =>
    intro n hn
    simpa [Core.merkleDepthGo] using hn
  | succ fuel ih =>
    intro n hn
    by_cases h1 : n ≤ 1
    · simp only [Core.merkleDepthGo, if_pos h1]
      simpa using h1
    · simp only [Core.merkleDepthGo]
      rw [if_neg h1]
      have hrec := ih ((n + 1) / 2) (by omega)
      rw [pow_succ]
      omega

theorem lem_merkleDepthGo_eq_clog (fuel : Nat) :
    ∀ n : Nat, n ≤ fuel + 1 → Core.merkleDepthGo fuel n = Nat.clog 2 n := by
  induction fuel with
  | zero =>
    intro n hn
    rw [Nat.clog_of_right_le_one hn]
    simp [Core.merkleDepthGo]
  | succ fuel ih =>
    intro n hn
    by_cases h1 : n ≤ 1
    · rw [Nat.clog_of_right_le_one h1]
      simp [Core.merkleDepthGo, h1]
    · rw [Nat.clog_of_two_le (by norm_num) (by omega)]
      simp only [Core.merkleDepthGo]
      rw [if_neg h1]
      have harg : n + 2 - 1 = n + 1 := by omega
      rw [harg, ih ((n + 1) / 2) (by omega)]

/-- C2: for a batch of n candidates the Merkle builder works at depth equal
to the ceiling of log2 n, and the leaf at index i carries the path string
given by the big-endian binary expansion of i padded to that depth. -/
theorem merkle_leaf_paths_are_binary_expansions
    (cands : List Core.Candidate) (i : Nat) (h : i < cands.length) :
    Core.merkleDepth cands.length = Nat.clog 2 cands.length ∧
    (Core.merkleLeaves cands)[i]? =
      cands[i]?.map
        (fun c => (c, Core.pathString (Core.binDigits (Nat.clog 2 cands.length) i))) := by
  have hclog : Core.merkleDepth cands.length = Nat.clog 2 cands.length :=
    lem_merkleDepthGo_eq_clog cands.length cands.length (Nat.le_succ _)
  refine ⟨hclog, ?_⟩
  have hle : cands.length ≤ 2 ^ Core.merkleDepth cands.length :=
    lem_merkleDepthGo_le_pow cands.length cands.length (Nat.le_succ _)
  rw [← hclog]
  unfold Core.merkleLeaves
  rw [List.getElem?_map, lem_assignPaths_get _ _ _ _ h (by omega), Option.map_map]
  cases cands[i]? <;> simp [Core.pathString]

/-- Witness for C2 at the four-candidate batch: the leaf paths are exactly
0/0, 0/1, 1/0, 1/1 in order, and the theorem instantiates at index 2. -/
theorem merkle_leaf_paths_four_leaves_witness :
    (Core.merkleLeaves Core.demoCands).map Prod.snd = ["0/0", "0/1", "1/0", "1/1"] ∧
    (Core.merkleLeaves Core.demoCands)[2]? =
      Core.demoCands[2]?.map
        (fun c => (c, Core.pathString (Core.binDigits (Nat.clog 2 Core.demoCands.length) 2))) :=
  ⟨by decide, (merkle_leaf_paths_are_binary_expansions Core.demoCands 2 (by decide)).2⟩

/-- C9: sendTransaction sends a transaction whose data field is the root
CID base16-encoded and prefixed with 0x, and returns a Transaction built
from the response chain id, the receipt transaction hash and block number,
and the timestamp of the mined block. -/
theorem sendTransaction_hex_data_and_receipt_fields
    (env : Chain.EthEnv) (rootCid : Chain.CID) :
    (Chain.txRequestOf env rootCid).data = "0x" ++ rootCid.toBaseEncodedString ∧
    Chain.sendTransaction env rootCid =
      { chainId := (env.send (Chain.txRequestOf env rootCid)).chainId
        txHash :=
          (env.waitForTransaction (env.send (Chain.txRequestOf env rootCid)).hash).transactionHash
        blockNumber :=
          (env.waitForTransaction (env.send (Chain.txRequestOf env rootCid)).hash).blockNumber
        blockTimestamp :=
          (env.getBlock
            (env.waitForTransaction
              (env.send (Chain.txRequestOf env rootCid)).hash).blockHash).timestamp } :=
  ⟨rfl, rfl⟩

/-- C10: looking a name up after registering returns the registered
instance; a second registration under the same constructor name overwrites
the first; an instance registered by build (and not shadowed later) is
returned by lookup under its class name. -/
theorem context_register_lookup_roundtrip :
    (∀ (c : Ctx.Context) (i : Ctx.Obj), (c.register i).lookup i.className = some i) ∧
    (∀ (c : Ctx.Context) (i j : Ctx.Obj), j.className = i.className →
      ((c.register i).register j).lookup i.className = some j) ∧
    (∀ (c : Ctx.Context) (files : List (String × Ctx.Obj)) (fn : String) (i : Ctx.Obj),
      Ctx.isMapFile fn = false →
      (c.build (files ++ [(fn, i)])).lookup i.className = some i) := by
  refine ⟨?_, ?_, ?_⟩
  · intro c i
    simp [Ctx.Context.register, Ctx.Context.lookup]
  · intro c i j h
    simp [Ctx.Context.register, Ctx.Context.lookup, h]
  · intro c files fn i h
    unfold Ctx.Context.build
    rw [List.foldl_append]
    simp [Ctx.Context.register, Ctx.Context.lookup, h]

/-- Witness for C10 at concrete instances: direct registration, shadowing
registration under the same class name, and registration through build. -/
theorem context_register_lookup_roundtrip_witness :
    ((Ctx.Context.empty.register ⟨"AnchorService", 1⟩).lookup "AnchorService"
      = some ⟨"AnchorService", 1⟩) ∧
    (((Ctx.Context.empty.register ⟨"AnchorService", 1⟩).register ⟨"AnchorService", 2⟩).lookup
      "AnchorService" = some ⟨"AnchorService", 2⟩) ∧
    ((Ctx.Context.empty.build
        ([("a.js", ⟨"CidService", 3⟩)] ++ [("b.js", ⟨"AnchorService", 4⟩)])).lookup
      "AnchorService" = some ⟨"AnchorService", 4⟩) :=
  ⟨context_register_lookup_roundtrip.1 Ctx.Context.empty ⟨"AnchorService", 1⟩,
   context_register_lookup_roundtrip.2.1 Ctx.Context.empty
     ⟨"AnchorService", 1⟩ ⟨"AnchorService", 2⟩ rfl,
   context_register_lookup_roundtrip.2.2 Ctx.Context.empty
     [("a.js", ⟨"CidService", 3⟩)] "b.js" ⟨"AnchorService", 4⟩ (by decide)⟩

/-- C8 (code divergence): the snapshot's own test suite assigns streamId,
message and pinned on Request objects, but the Request entity declared in
src/models/request.ts carries none of those properties; its stream
identifier property is docId and its unique constraint is on cid. -/
theorem request_entity_contradicts_test_fields :
    ("streamId" ∈ Models.testAssignedRequestFields ∧ "streamId" ∉ Models.requestFields) ∧
    ("message" ∈ Models.testAssignedRequestFields ∧ "message" ∉ Models.requestFields) ∧
    ("pinned" ∈ Models.testAssignedRequestFields ∧ "pinned" ∉ Models.requestFields) ∧
    "docId" ∈ Models.requestFields ∧ Models.requestUniqueConstraints = [["cid"]] := by
  decide

/-! ## Request store update lemmas -/

theorem lem_status_cases_of_terminal {st : RequestStatus} (ht : st.isTerminal = true) :
    st ≠ RequestStatus.PENDING ∧ st ≠ RequestStatus.READY ∧ st ≠ RequestStatus.PROCESSING := by
  cases st <;> simp_all [RequestStatus.isTerminal]

theorem lem_updateRequests_terminal (f : Core.UpdateFields) (ids : List Nat)
    (db : List Core.Request) (k : Nat) (r : Core.Request)
    (hk : db[k]? = some r) (ht : r.status.isTerminal = true) :
    (Core.updateRequests f ids db)[k]? = some r := by
  unfold Core.updateRequests
  rw [List.getElem?_map, hk]
  simp [ht]

theorem lem_updateRequests_unmentioned (f : Core.UpdateFields) (ids : List Nat)
    (db : List Core.Request) (k : Nat) (r : Core.Request)
    (hk : db[k]? = some r) (hid : r.id ∉ ids) :
    (Core.updateRequests f ids db)[k]? = some r := by
  unfold Core.updateRequests
  rw [List.getElem?_map, hk]
  simp [hid]

theorem lem_updateRequests_mentioned (f : Core.UpdateFields) (ids : List Nat)
    (db : List Core.Request) (k : Nat) (r : Core.Request)
    (hk : db[k]? = some r) (hid : r.id ∈ ids) (hnt : r.status.isTerminal = false) :
    (Core.updateRequests f ids db)[k]? =
      some { r with status := f.status, message := f.message.getD r.message } := by
  unfold Core.updateRequests
  rw [List.getElem?_map, hk]
  simp [hid, hnt]

theorem lem_setPinned_pres (ids : List Nat) (db : List Core.Request) (k : Nat)
    (r : Core.Request) (hk : db[k]? = some r) :
    ∃ rr, (Core.setPinned ids db)[k]? = some rr ∧ rr.status = r.status ∧
      rr.id = r.id ∧ rr.message = r.message := by
  unfold Core.setPinned
  rw [List.getElem?_map, hk]
  by_cases h : r.id ∈ ids
  · exact ⟨{ r with pinned := true }, by simp [h], rfl, rfl, rfl⟩
  · exact ⟨r, by simp [h], rfl, rfl, rfl⟩

theorem lem_setPinned_unmentioned (ids : List Nat) (db : List Core.Request) (k : Nat)
    (r : Core.Request) (hk : db[k]? = some r) (hid : r.id ∉ ids) :
    (Core.setPinned ids db)[k]? = some r := by
  unfold Core.setPinned
  rw [List.getElem?_map, hk]
  simp [hid]

theorem lem_applySelectorUpdates_terminal (ups : List Core.StatusUpdate) :
    ∀ (db : List Core.Request) (k : Nat) (r : Core.Request),
      db[k]? = some r → r.status.isTerminal = true →
      (Core.applySelectorUpdates ups db)[k]? = some r := by
  induction ups with
  | nil =>
    intro db k r hk ht
    simpa [Core.applySelectorUpdates] using hk
  | cons u us ih =>
    intro db k r hk ht
    have h1 : (Core.applyUpdate db u)[k]? = some r := by
      exact lem_updateRequests_terminal ⟨u.2.1, some u.2.2⟩ [u.1] db k r hk ht
    exact ih (Core.applyUpdate db u) k r h1 ht

theorem lem_applySelectorUpdates_unmentioned (ups : List Core.StatusUpdate) :
    ∀ (db : List Core.Request) (k : Nat) (r : Core.Request),
      db[k]? = some r → r.id ∉ ups.map Prod.fst →
      (Core.applySelectorUpdates ups db)[k]? = some r := by
  induction ups with
  | nil =>
    intro db k r hk _
    simpa [Core.applySelectorUpdates] using hk
  | cons u us ih =>
    intro db k r hk hid
    simp only [List.map_cons, List.mem_cons, not_or] at hid
    have h1 : (Core.applyUpdate db u)[k]? = some r := by
      exact lem_updateRequests_unmentioned ⟨u.2.1, some u.2.2⟩ [u.1] db k r hk
        (by simpa using hid.1)
    exact ih (Core.applyUpdate db u) k r h1 hid.2

theorem lem_findAndMarkReady_terminal (cfg : Core.CoreConfig) (db : List Core.Request)
    (k : Nat) (r : Core.Request) (hk : db[k]? = some r) (ht : r.status.isTerminal = true) :
    ((Core.findAndMarkReady cfg db).snd)[k]? = some r := by
  obtain ⟨h1, h2, _⟩ := lem_status_cases_of_terminal ht
  simp only [Core.findAndMarkReady]
  rw [List.getElem?_map, hk]
  simp [h1, h2]

theorem lem_persistAnchorResult_status (emitted : List (Core.Candidate × Core.Anchor))
    (db : List Core.Request) (k : Nat) (r : Core.Request)
    (hk : db[k]? = some r) (ht : r.status.isTerminal = true) :
    ∃ rr, (Core.persistAnchorResult emitted db)[k]? = some rr ∧ rr.status = r.status := by
  unfold Core.persistAnchorResult
  have hmid := lem_updateRequests_terminal ⟨RequestStatus.COMPLETED, some Core.completedMsg⟩
    (Core.acceptedIds (emitted.map Prod.fst)) db k r hk ht
  obtain ⟨rr, hrr, hst, _, _⟩ :=
    lem_setPinned_pres (Core.acceptedIds (emitted.map Prod.fst)) _ k r hmid
  exact ⟨rr, hrr, hst⟩

theorem lem_anchorRequests_terminal (cfg : Core.CoreConfig) (env : Core.CoreEnv)
    (db : List Core.Request) (p : List Core.Request × List Core.Anchor)
    (h : Core.anchorRequests cfg env db = Except.ok p)
    (k : Nat) (r : Core.Request) (hk : db[k]? = some r) (ht : r.status.isTerminal = true) :
    ∃ rr, p.fst[k]? = some rr ∧ rr.status = r.status := by
  have hfmr : ((Core.findAndMarkReady cfg db).snd)[k]? = some r :=
    lem_findAndMarkReady_terminal cfg db k r hk ht
  simp only [Core.anchorRequests] at h
  split at h <;> (try split at h) <;> (try split at h) <;> (try split at h)
  · rw [Except.ok.injEq] at h
    subst h
    exact ⟨r, hfmr, rfl⟩
  · rw [Except.ok.injEq] at h
    subst h
    exact ⟨r, lem_applySelectorUpdates_terminal _ _ k r hfmr ht, rfl⟩
  · exact Except.noConfusion h
  · rw [Except.ok.injEq] at h
    subst h
    exact lem_persistAnchorResult_status _ _ k r
      (lem_updateRequests_terminal ⟨RequestStatus.PROCESSING, some Core.processingMsg⟩ _ _ k r
        (lem_applySelectorUpdates_terminal _ _ k r hfmr ht) ht) ht
  · rw [Except.ok.injEq] at h
    subst h
    exact ⟨r, lem_applySelectorUpdates_terminal _ _ k r hk ht, rfl⟩
  · exact Except.noConfusion h
  · rw [Except.ok.injEq] at h
    subst h
    exact lem_persistAnchorResult_status _ _ k r
      (lem_updateRequests_terminal ⟨RequestStatus.PROCESSING, some Core.processingMsg⟩ _ _ k r
        (lem_applySelectorUpdates_terminal _ _ k r hk ht) ht) ht

/-- C3 (at-most-once completion): updateRequests skips every row whose
current status is terminal (COMPLETED or FAILED), leaving that row
unchanged, and no cycle run moves a terminal row to a different status. -/
theorem terminal_requests_never_regress :
    (∀ (f : Core.UpdateFields) (ids : List Nat) (db : List Core.Request)
      (k : Nat) (r : Core.Request),
      db[k]? = some r → r.status.isTerminal = true →
      (Core.updateRequests f ids db)[k]? = some r) ∧
    (∀ (cfg : Core.CoreConfig) (env : Core.CoreEnv) (db : List Core.Request)
      (k : Nat) (r : Core.Request),
      db[k]? = some r → r.status.isTerminal = true →
      ∃ rr, ((Core.runCycle cfg env db).db)[k]? = some rr ∧ rr.status = r.status) := by
  refine ⟨lem_updateRequests_terminal, ?_⟩
  intro cfg env db k r hk ht
  cases hA : Core.anchorRequests cfg env db with
  | error e =>
    refine ⟨r, ?_, rfl⟩
    simp [Core.runCycle, hA, hk]
  | ok p =>
    have := lem_anchorRequests_terminal cfg env db p hA k r hk ht
    simpa [Core.runCycle, hA] using this

/-- Witness for C3: a COMPLETED row survives an attempted downgrade to
PENDING unchanged, and keeps its status across a full cycle run. -/
theorem terminal_requests_never_regress_witness :
    (Core.dbTerm[0]? = some Core.reqDone ∧ Core.reqDone.status.isTerminal = true) ∧
    (Core.updateRequests ⟨RequestStatus.PENDING, none⟩ [21] Core.dbTerm)[0]? =
      some Core.reqDone ∧
    (∃ rr, ((Core.runCycle Core.cfg8 Core.env8 Core.dbTerm).db)[0]? = some rr ∧
      rr.status = Core.reqDone.status) :=
  ⟨⟨by decide, by decide⟩,
   terminal_requests_never_regress.1 ⟨RequestStatus.PENDING, none⟩ [21] Core.dbTerm 0
     Core.reqDone (by decide) (by decide),
   terminal_requests_never_regress.2 Core.cfg8 Core.env8 Core.dbTerm 0
     Core.reqDone (by decide) (by decide)⟩

/-! ## Stream id and bucket lemmas -/

theorem lem_streamIds_mono (reqs : List Core.Request) :
    ∀ (acc : List String) (x : String), x ∈ acc →
      x ∈ reqs.foldl (fun a q => if q.streamId ∈ a then a else a ++ [q.streamId]) acc := by
  induction reqs with
  | nil =>
    intro acc x hx
    simpa using hx
  | cons r0 rest ih =>
    intro acc x hx
    simp only [List.foldl_cons]
    apply ih
    by_cases h : r0.streamId ∈ acc
    · rwa [if_pos h]
    · rw [if_neg h]
      exact List.mem_append_left _ hx

theorem lem_streamIds_mem_aux (reqs : List Core.Request) :
    ∀ (acc : List String) (r : Core.Request), r ∈ reqs →
      r.streamId ∈ reqs.foldl (fun a q => if q.streamId ∈ a then a else a ++ [q.streamId]) acc := by
  induction reqs with
  | nil =>
    intro acc r hr
    simp at hr
  | cons r0 rest ih =>
    intro acc r hr
    simp only [List.foldl_cons]
    rcases List.mem_cons.mp hr with rfl | hr2
    · apply lem_streamIds_mono
      by_cases h : r.streamId ∈ acc
      · rwa [if_pos h]
      · rw [if_neg h]
        exact List.mem_append_right _ (by simp)
    · exact ih _ r hr2

theorem lem_mem_streamIds (reqs : List Core.Request) (r : Core.Request) (hr : r ∈ reqs) :
    r.streamId ∈ Core.streamIds reqs := by
  unfold Core.streamIds
  exact lem_streamIds_mem_aux reqs [] r hr

theorem lem_streamIds_src_aux (reqs : List Core.Request) :
    ∀ (acc : List String) (x : String),
      x ∈ reqs.foldl (fun a q => if q.streamId ∈ a then a else a ++ [q.streamId]) acc →
      x ∈ acc ∨ ∃ r, r ∈ reqs ∧ r.streamId = x := by
  induction reqs with
  | nil =>
    intro acc x hx
    left
    simpa using hx
  | cons r0 rest ih =>
    intro acc x hx
    simp only [List.foldl_cons] at hx
    rcases ih _ x hx with h | ⟨r, hr, hrx⟩
    · by_cases h0 : r0.streamId ∈ acc
      · rw [if_pos h0] at h
        exact Or.inl h
      · rw [if_neg h0] at h
        rcases List.mem_append.mp h with h1 | h1
        · exact Or.inl h1
        · right
          refine ⟨r0, by simp, ?_⟩
          have hx : x = r0.streamId := by simpa using h1
          exact hx.symm
    · right
      exact ⟨r, by simp [hr], hrx⟩

theorem lem_streamIds_src (reqs : List Core.Request) (x : String)
    (hx : x ∈ Core.streamIds reqs) : ∃ r, r ∈ reqs ∧ r.streamId = x := by
  unfold Core.streamIds at hx
  rcases lem_streamIds_src_aux reqs [] x hx with h | h
  · simp at h
  · exact h

theorem lem_streamIds_nodup_aux (reqs : List Core.Request) :
    ∀ acc : List String, acc.Nodup →
      (reqs.foldl (fun a q => if q.streamId ∈ a then a else a ++ [q.streamId]) acc).Nodup := by
  induction reqs with
  | nil =>
    intro acc h
    simpa using h
  | cons r0 rest ih =>
    intro acc h
    simp only [List.foldl_cons]
    apply ih
    by_cases h0 : r0.streamId ∈ acc
    · rwa [if_pos h0]
    · rw [if_neg h0]
      simp [List.nodup_append, h, h0]

theorem lem_streamIds_nodup (reqs : List Core.Request) : (Core.streamIds reqs).Nodup := by
  unfold Core.streamIds
  exact lem_streamIds_nodup_aux reqs [] (by simp)

theorem lem_streamIds_of_nodup_aux (reqs : List Core.Request) :
    ∀ acc : List String, (∀ r ∈ reqs, r.streamId ∉ acc) →
      (reqs.map Core.Request.streamId).Nodup →
      reqs.foldl (fun a q => if q.streamId ∈ a then a else a ++ [q.streamId]) acc
        = acc ++ reqs.map Core.Request.streamId := by
  induction reqs with
  | nil =>
    intro acc _ _
    simp
  | cons r0 rest ih =>
    intro acc hdisj hnd
    simp only [List.foldl_cons]
    rw [if_neg (hdisj r0 (by simp))]
    rw [List.map_cons] at hnd ⊢
    have hnd2 := List.nodup_cons.mp hnd
    rw [ih (acc ++ [r0.streamId]) ?_ hnd2.2]
    · simp
    · intro r hr
      rw [List.mem_append]
      rintro (h | h)
      · exact hdisj r (by simp [hr]) h
      · have hx : r.streamId = r0.streamId := by simpa using h
        exact hnd2.1 (by rw [← hx]; exact List.mem_map_of_mem _ hr)

theorem lem_streamIds_of_nodup (reqs : List Core.Request)
    (h : (reqs.map Core.Request.streamId).Nodup) :
    Core.streamIds reqs = reqs.map Core.Request.streamId := by
  unfold Core.streamIds
  simpa using lem_streamIds_of_nodup_aux reqs [] (by simp) h

theorem lem_mem_bucketOf (reqs : List Core.Request) (r : Core.Request) (hr : r ∈ reqs) :
    r ∈ Core.bucketOf reqs r.streamId := by
  unfold Core.bucketOf
  exact List.mem_filter.mpr ⟨hr, by simp⟩

theorem lem_bucketOf_spec (reqs : List Core.Request) (sid : String) (q : Core.Request)
    (hq : q ∈ Core.bucketOf reqs sid) : q ∈ reqs ∧ q.streamId = sid := by
  unfold Core.bucketOf at hq
  have h := List.mem_filter.mp hq
  exact ⟨h.1, by simpa using h.2⟩

theorem lem_mem_bucketOf_of (reqs : List Core.Request) (sid : String) (q : Core.Request)
    (hq : q ∈ reqs) (hsid : q.streamId = sid) : q ∈ Core.bucketOf reqs sid := by
  unfold Core.bucketOf
  exact List.mem_filter.mpr ⟨hq, by simp [hsid]⟩

/-! ## Candidate selection lemmas -/

theorem lem_processBucket_some (streams : String → Option Core.Stream) (sid : String)
    (reqs : List Core.Request) (c : Core.Candidate)
    (h : (Core.processBucket streams sid reqs).fst = some c) :
    ∃ s, streams sid = some s ∧ c.streamId = sid ∧ c.cid = s.tipCid ∧
      c.acceptedRequests =
        (reqs.filter (fun r => ! s.alreadyAnchored r.cid)).filter
          (fun r => (s.cidIndex r.cid).isSome) ∧
      c.acceptedRequests ≠ [] := by
  simp only [Core.processBucket] at h
  split at h
  · simp at h
  · rename_i s heq
    split at h
    · simp at h
    · rename_i hacc
      injection h with h2
      subst h2
      exact ⟨s, heq, rfl, rfl, rfl, hacc⟩

theorem lem_processBucket_snd (streams : String → Option Core.Stream) (sid : String)
    (reqs : List Core.Request) (s : Core.Stream) (hs : streams sid = some s) :
    (Core.processBucket streams sid reqs).snd =
      (reqs.filter (fun r => s.alreadyAnchored r.cid)).map
        (fun r => (r.id, RequestStatus.COMPLETED, Core.completedMsg))
      ++ ((reqs.filter (fun r => ! s.alreadyAnchored r.cid)).filter
          (fun r => (s.cidIndex r.cid).isNone)).map
        (fun r => (r.id, RequestStatus.FAILED, Core.noVersionMsg)) := by
  simp only [Core.processBucket, hs]
  split <;> rfl

theorem lem_processBucket_fst_spec (streams : String → Option Core.Stream) (sid : String)
    (reqs : List Core.Request) (s : Core.Stream) (hs : streams sid = some s)
    (hne : (reqs.filter (fun r => ! s.alreadyAnchored r.cid)).filter
      (fun r => (s.cidIndex r.cid).isSome) ≠ []) :
    ∃ c, (Core.processBucket streams sid reqs).fst = some c := by
  simp only [Core.processBucket, hs]
  rw [if_neg hne]
  exact ⟨_, rfl⟩

theorem lem_mem_rawCandidates (streams : String → Option Core.Stream)
    (reqs : List Core.Request) (c : Core.Candidate) :
    c ∈ Core.rawCandidates streams reqs ↔
      ∃ sid, sid ∈ Core.streamIds reqs ∧
        (Core.processBucket streams sid (Core.bucketOf reqs sid)).fst = some c := by
  unfold Core.rawCandidates Core.bucketResults
  rw [List.mem_filterMap]
  constructor
  · rintro ⟨pair, hpair, hfst⟩
    obtain ⟨sid, hsid, rfl⟩ := List.mem_map.mp hpair
    exact ⟨sid, hsid, hfst⟩
  · rintro ⟨sid, hsid, hfst⟩
    exact ⟨_, List.mem_map_of_mem _ hsid, hfst⟩

theorem lem_raw_spec (streams : String → Option Core.Stream) (reqs : List Core.Request)
    (c : Core.Candidate) (h : c ∈ Core.rawCandidates streams reqs) :
    ∃ s, streams c.streamId = some s ∧ c.cid = s.tipCid ∧
      c.acceptedRequests =
        ((Core.bucketOf reqs c.streamId).filter (fun r => ! s.alreadyAnchored r.cid)).filter
          (fun r => (s.cidIndex r.cid).isSome) ∧
      c.acceptedRequests ≠ [] := by
  obtain ⟨sid, hsid, hfst⟩ := (lem_mem_rawCandidates streams reqs c).mp h
  obtain ⟨s, hs, hstream, hcid, hacc, hne⟩ := lem_processBucket_some streams sid _ c hfst
  subst hstream
  exact ⟨s, hs, hcid, hacc, hne⟩

theorem lem_mem_orderCandidates (cands : List Core.Candidate) (c : Core.Candidate) :
    c ∈ Core.orderCandidates cands ↔ c ∈ cands :=
  (List.perm_insertionSort Core.candLE cands).mem_iff

theorem lem_mem_applyLimit (L : Nat) (cands : List Core.Candidate) (c : Core.Candidate)
    (h : c ∈ Core.applyLimit L cands) : c ∈ cands := by
  unfold Core.applyLimit at h
  split at h
  · exact h
  · exact List.mem_of_mem_take h

theorem lem_mem_kept_raw (streams : String → Option Core.Stream) (reqs : List Core.Request)
    (L : Nat) (c : Core.Candidate) (h : c ∈ (Core.findCandidates streams reqs L).fst) :
    c ∈ Core.rawCandidates streams reqs :=
  (lem_mem_orderCandidates _ c).mp (lem_mem_applyLimit L _ c h)

theorem lem_filterMap_fst_sublist (streams : String → Option Core.Stream)
    (reqs : List Core.Request) :
    ∀ sids : List String,
      (((sids.map (fun sid => Core.processBucket streams sid (Core.bucketOf reqs sid))).filterMap
        Prod.fst).map Core.Candidate.streamId).Sublist sids := by
  intro sids
  induction sids with
  | nil => simp
  | cons sid rest ih =>
    simp only [List.map_cons, List.filterMap_cons]
    cases hfst : (Core.processBucket streams sid (Core.bucketOf reqs sid)).fst with
    | none => exact ih.cons sid
    | some c =>
      have hcs : c.streamId = sid := by
        obtain ⟨s, _, h2, _⟩ := lem_processBucket_some streams sid _ c hfst
        exact h2
      simp only [List.map_cons, hcs]
      exact ih.cons₂ sid

theorem lem_raw_streamIds_nodup (streams : String → Option Core.Stream)
    (reqs : List Core.Request) :
    ((Core.rawCandidates streams reqs).map Core.Candidate.streamId).Nodup := by
  have h := lem_filterMap_fst_sublist streams reqs (Core.streamIds reqs)
  exact h.nodup (lem_streamIds_nodup reqs)

theorem lem_ordered_streamIds_nodup (streams : String → Option Core.Stream)
    (reqs : List Core.Request) :
    ((Core.orderCandidates (Core.rawCandidates streams reqs)).map
      Core.Candidate.streamId).Nodup := by
  have hperm := (List.perm_insertionSort Core.candLE (Core.rawCandidates streams reqs)).map
    Core.Candidate.streamId
  exact hperm.nodup_iff.mpr (lem_raw_streamIds_nodup streams reqs)

theorem lem_kept_streamIds_nodup (streams : String → Option Core.Stream)
    (reqs : List Core.Request) (L : Nat) :
    (((Core.findCandidates streams reqs L).fst).map Core.Candidate.streamId).Nodup := by
  have h := lem_ordered_streamIds_nodup streams reqs
  unfold Core.findCandidates Core.applyLimit
  split
  · exact h
  · exact ((List.take_sublist L _).map Core.Candidate.streamId).nodup h

theorem lem_accepted_spec (streams : String → Option Core.Stream) (reqs : List Core.Request)
    (c : Core.Candidate) (q : Core.Request)
    (h : c ∈ Core.rawCandidates streams reqs) (hq : q ∈ c.acceptedRequests) :
    q ∈ reqs ∧ q.streamId = c.streamId ∧
      ∃ s, streams c.streamId = some s ∧ s.alreadyAnchored q.cid = false ∧
        (s.cidIndex q.cid).isSome = true := by
  obtain ⟨s, hs, _, hacc, _⟩ := lem_raw_spec streams reqs c h
  rw [hacc] at hq
  have h1 := List.mem_filter.mp hq
  have h2 := List.mem_filter.mp h1.1
  obtain ⟨h3, h4⟩ := lem_bucketOf_spec reqs c.streamId q h2.1
  refine ⟨h3, h4, s, hs, ?_, h1.2⟩
  simpa using h2.2

theorem lem_accepted_complete (streams : String → Option Core.Stream) (reqs : List Core.Request)
    (c : Core.Candidate) (s : Core.Stream) (q : Core.Request)
    (h : c ∈ Core.rawCandidates streams reqs) (hs : streams c.streamId = some s)
    (hq : q ∈ reqs) (hsid : q.streamId = c.streamId)
    (ha : s.alreadyAnchored q.cid = false) (hi : (s.cidIndex q.cid).isSome = true) :
    q ∈ c.acceptedRequests := by
  obtain ⟨s2, hs2, _, hacc, _⟩ := lem_raw_spec streams reqs c h
  rw [hs] at hs2
  injection hs2 with hs3
  subst hs3
  rw [hacc]
  refine List.mem_filter.mpr ⟨List.mem_filter.mpr ⟨?_, ?_⟩, ?_⟩
  · exact lem_mem_bucketOf_of reqs c.streamId q hq hsid
  · simp [ha]
  · simp [hi]

theorem lem_selectorUpdates_src (streams : String → Option Core.Stream)
    (reqs : List Core.Request) (u : Core.StatusUpdate)
    (hu : u ∈ Core.selectorUpdates streams reqs) :
    ∃ q2, q2 ∈ reqs ∧ q2.id = u.fst ∧
      ∀ s2, streams q2.streamId = some s2 →
        s2.alreadyAnchored q2.cid = true ∨ (s2.cidIndex q2.cid).isNone = true := by
  unfold Core.selectorUpdates Core.bucketResults at hu
  obtain ⟨upsl, hupsl, humem⟩ := List.mem_flatten.mp hu
  obtain ⟨pair, hpair, rfl⟩ := List.mem_map.mp hupsl
  obtain ⟨sid, hsid, rfl⟩ := List.mem_map.mp hpair
  rcases hstream : streams sid with _ | s
  · rw [show (Core.processBucket streams sid (Core.bucketOf reqs sid)).snd
        = (Core.bucketOf reqs sid).map
            (fun r => (r.id, RequestStatus.FAILED, Core.noVersionMsg)) from by
      simp only [Core.processBucket, hstream]] at humem
    obtain ⟨q2, hq2, rfl⟩ := List.mem_map.mp humem
    obtain ⟨hq2r, hq2s⟩ := lem_bucketOf_spec reqs sid q2 hq2
    refine ⟨q2, hq2r, rfl, ?_⟩
    intro s2 hs2
    rw [hq2s, hstream] at hs2
    exact Option.noConfusion hs2
  · rw [lem_processBucket_snd streams sid _ s hstream] at humem
    rcases List.mem_append.mp humem with hmem | hmem
    · obtain ⟨q2, hq2, rfl⟩ := List.mem_map.mp hmem
      have h1 := List.mem_filter.mp hq2
      obtain ⟨hq2r, hq2s⟩ := lem_bucketOf_spec reqs sid q2 h1.1
      refine ⟨q2, hq2r, rfl, ?_⟩
      intro s2 hs2
      rw [hq2s, hstream] at hs2
      injection hs2 with hs3
      subst hs3
      exact Or.inl h1.2
    · obtain ⟨q2, hq2, rfl⟩ := List.mem_map.mp hmem
      have h1 := List.mem_filter.mp hq2
      have h2 := List.mem_filter.mp h1.1
      obtain ⟨hq2r, hq2s⟩ := lem_bucketOf_spec reqs sid q2 h2.1
      refine ⟨q2, hq2r, rfl, ?_⟩
      intro s2 hs2
      rw [hq2s, hstream] at hs2
      injection hs2 with hs3
      subst hs3
      exact Or.inr h1.2

/-! ## Emission lemmas -/

theorem lem_assignPaths_map_fst (d : Nat) :
    ∀ (cands : List Core.Candidate) (pre : List Nat),
      (Core.assignPaths d cands pre).map Prod.fst = cands.take (2 ^ d) := by
  induction d with
  | zero =>
    intro cands pre
    cases cands with
    | nil => simp [Core.assignPaths]
    | cons c cs =>
      show [c] = List.take 1 (c :: cs)
      rfl
  | succ d ih =>
    intro cands pre
    have h2 : 2 ^ (d + 1) = 2 ^ d + 2 ^ d := by
      rw [pow_succ]; omega
    simp only [Core.assignPaths, List.map_append, ih]
    rw [List.take_take, Nat.min_self, h2, List.take_add]

theorem lem_merkleLeaves_fst (cands : List Core.Candidate) :
    (Core.merkleLeaves cands).map Prod.fst = cands := by
  unfold Core.merkleLeaves
  rw [List.map_map]
  have hfn : (Prod.fst ∘ fun p : Core.Candidate × List Nat =>
      ((p.fst, Core.pathString p.snd) : Core.Candidate × String)) = Prod.fst := rfl
  rw [hfn, lem_assignPaths_map_fst]
  exact List.take_of_length_le
    (lem_merkleDepthGo_le_pow cands.length cands.length (Nat.le_succ _))

theorem lem_emit_all_ok (env : Core.EmitEnv) (proofCid : String)
    (hst : ∀ a, ∃ cid0, env.store a = Except.ok cid0)
    (hpub : ∀ sid tip, env.publish sid tip = Except.ok ()) :
    ∀ leaves : List (Core.Candidate × String),
      (Core.emitAnchorCommits env proofCid leaves).map Prod.fst = leaves.map Prod.fst := by
  intro leaves
  induction leaves with
  | nil => rfl
  | cons l ls ih =>
    obtain ⟨cid0, hcid⟩ := hst ⟨l.fst.cid, proofCid, l.snd⟩
    simp only [Core.emitAnchorCommits, List.filterMap_cons, hcid, hpub l.fst.streamId cid0]
    simp only [Core.emitAnchorCommits] at ih
    simp [ih]

theorem lem_mem_acceptedIds (cands : List Core.Candidate) (c : Core.Candidate)
    (q : Core.Request) (hc : c ∈ cands) (hq : q ∈ c.acceptedRequests) :
    q.id ∈ Core.acceptedIds cands := by
  unfold Core.acceptedIds
  exact List.mem_flatten.mpr
    ⟨c.acceptedRequests.map Core.Request.id, List.mem_map_of_mem _ hc,
      List.mem_map_of_mem _ hq⟩

/-- C4: every candidate that survives selection carries the stream tip CID
as its own CID; every request of the bucket whose CID sits unanchored in
the stream log is accepted; at most one candidate is produced per stream
id; and with a fully successful emission every accepted request row is
marked COMPLETED by the persist step. -/
theorem candidate_is_stream_tip_and_ancestors_complete
    (streams : String → Option Core.Stream) (reqs : List Core.Request) (L : Nat) :
    (∀ c ∈ (Core.findCandidates streams reqs L).fst,
      ∃ s, streams c.streamId = some s ∧ c.cid = s.tipCid ∧
        ∀ r ∈ reqs, r.streamId = c.streamId → s.alreadyAnchored r.cid = false →
          (s.cidIndex r.cid).isSome = true → r ∈ c.acceptedRequests) ∧
    (((Core.findCandidates streams reqs L).fst).map Core.Candidate.streamId).Nodup ∧
    (∀ (emitEnv : Core.EmitEnv) (proofCid : String),
      (∀ a, ∃ cid0, emitEnv.store a = Except.ok cid0) →
      (∀ sid tip, emitEnv.publish sid tip = Except.ok ()) →
      ∀ c ∈ (Core.findCandidates streams reqs L).fst,
        ∀ q ∈ c.acceptedRequests,
          ∀ (db : List Core.Request) (k : Nat) (x : Core.Request),
            db[k]? = some x → x.id = q.id → x.status.isTerminal = false →
            ∃ xx, (Core.persistAnchorResult
                (Core.emitAnchorCommits emitEnv proofCid
                  (Core.merkleLeaves (Core.findCandidates streams reqs L).fst)) db)[k]?
              = some xx ∧
              xx.status = RequestStatus.COMPLETED ∧ xx.message = Core.completedMsg) := by
  refine ⟨?_, lem_kept_streamIds_nodup streams reqs L, ?_⟩
  · intro c hc
    have hraw := lem_mem_kept_raw streams reqs L c hc
    obtain ⟨s, hs, hcid, _, _⟩ := lem_raw_spec streams reqs c hraw
    refine ⟨s, hs, hcid, ?_⟩
    intro r hr hsid ha hi
    exact lem_accepted_complete streams reqs c s r hraw hs hr hsid ha hi
  · intro emitEnv proofCid hst hpub c hc q hq db k x hx hid hnt
    have hemit : (Core.emitAnchorCommits emitEnv proofCid
        (Core.merkleLeaves (Core.findCandidates streams reqs L).fst)).map Prod.fst
        = (Core.findCandidates streams reqs L).fst := by
      rw [lem_emit_all_ok emitEnv proofCid hst hpub, lem_merkleLeaves_fst]
    have hqid : x.id ∈ Core.acceptedIds
        ((Core.emitAnchorCommits emitEnv proofCid
          (Core.merkleLeaves (Core.findCandidates streams reqs L).fst)).map Prod.fst) := by
      rw [hemit, hid]
      exact lem_mem_acceptedIds _ c q hc hq
    unfold Core.persistAnchorResult
    have hmid := lem_updateRequests_mentioned
      ⟨RequestStatus.COMPLETED, some Core.completedMsg⟩ _ db k x hx hqid hnt
    obtain ⟨xx, hxx, hstat, _, hmsg⟩ := lem_setPinned_pres _ _ k _ hmid
    exact ⟨xx, hxx, by simp [hstat], by simp [hmsg]⟩

/-- Witness for C4 at the shared-stream scenario: one candidate whose CID
is the tip (the newer request CID), both requests accepted, and the second
request row completed by a fully successful emission. -/
theorem candidate_is_stream_tip_witness :
    Core.candY ∈ (Core.findCandidates Core.streamsY [Core.reqY0, Core.reqY1] 0).fst ∧
    (∃ s, Core.streamsY Core.candY.streamId = some s ∧ Core.candY.cid = s.tipCid ∧
      ∀ r ∈ [Core.reqY0, Core.reqY1], r.streamId = Core.candY.streamId →
        s.alreadyAnchored r.cid = false → (s.cidIndex r.cid).isSome = true →
        r ∈ Core.candY.acceptedRequests) ∧
    (∃ xx, (Core.persistAnchorResult
        (Core.emitAnchorCommits Core.env8.emit "p"
          (Core.merkleLeaves (Core.findCandidates Core.streamsY [Core.reqY0, Core.reqY1] 0).fst))
        [Core.reqY0, Core.reqY1])[1]? = some xx ∧
      xx.status = RequestStatus.COMPLETED ∧ xx.message = Core.completedMsg) :=
  ⟨by decide,
   (candidate_is_stream_tip_and_ancestors_complete Core.streamsY [Core.reqY0, Core.reqY1] 0).1
     Core.candY (by decide),
   (candidate_is_stream_tip_and_ancestors_complete Core.streamsY [Core.reqY0, Core.reqY1] 0).2.2
     Core.env8.emit "p" (fun a => ⟨"anchor-" ++ a.prev, rfl⟩) (fun sid tip => rfl)
     Core.candY (by decide) Core.reqY1 (by decide)
     [Core.reqY0, Core.reqY1] 1 Core.reqY1 (by decide) rfl (by decide)⟩

/-- C6: a request whose CID appears in the loaded stream log at or before
an anchor commit receives the COMPLETED update with the anchoring success
message, and no surviving candidate accepts it (so no anchor is emitted for
it). -/
theorem already_anchored_completed_without_candidate
    (streams : String → Option Core.Stream) (reqs : List Core.Request) (L : Nat)
    (r : Core.Request) (s : Core.Stream)
    (hr : r ∈ reqs) (hs : streams r.streamId = some s)
    (ha : s.alreadyAnchored r.cid = true) :
    (r.id, RequestStatus.COMPLETED, Core.completedMsg) ∈
      (Core.findCandidates streams reqs L).snd ∧
    ∀ c ∈ (Core.findCandidates streams reqs L).fst, r ∉ c.acceptedRequests := by
  constructor
  · have hsid := lem_mem_streamIds reqs r hr
    have hbucket := lem_mem_bucketOf reqs r hr
    have hsnd := lem_processBucket_snd streams r.streamId (Core.bucketOf reqs r.streamId) s hs
    have hcomp : r ∈ (Core.bucketOf reqs r.streamId).filter
        (fun q => s.alreadyAnchored q.cid) :=
      List.mem_filter.mpr ⟨hbucket, ha⟩
    have humem : (r.id, RequestStatus.COMPLETED, Core.completedMsg) ∈
        (Core.processBucket streams r.streamId (Core.bucketOf reqs r.streamId)).snd := by
      rw [hsnd]
      exact List.mem_append_left _ (List.mem_map_of_mem _ hcomp)
    show (r.id, RequestStatus.COMPLETED, Core.completedMsg) ∈ Core.selectorUpdates streams reqs
    unfold Core.selectorUpdates Core.bucketResults
    exact List.mem_flatten.mpr
      ⟨(Core.processBucket streams r.streamId (Core.bucketOf reqs r.streamId)).snd,
        List.mem_map_of_mem Prod.snd (List.mem_map_of_mem _ hsid), humem⟩
  · intro c hc hmem
    obtain ⟨_, hsid2, s2, hs2, hfalse, _⟩ :=
      lem_accepted_spec streams reqs c r (lem_mem_kept_raw streams reqs L c hc) hmem
    rw [← hsid2, hs] at hs2
    injection hs2 with hs3
    rw [hs3] at ha
    rw [ha] at hfalse
    exact Bool.noConfusion hfalse

/-- Witness for C6: the externally anchored request receives the COMPLETED
update and no candidate is produced for it. -/
theorem already_anchored_witness :
    (Core.reqAnch ∈ [Core.reqAnch] ∧
      Core.streamsX Core.reqAnch.streamId = some Core.streamX ∧
      Core.streamX.alreadyAnchored Core.reqAnch.cid = true) ∧
    ((Core.reqAnch.id, RequestStatus.COMPLETED, Core.completedMsg) ∈
      (Core.findCandidates Core.streamsX [Core.reqAnch] 0).snd ∧
    ∀ c ∈ (Core.findCandidates Core.streamsX [Core.reqAnch] 0).fst,
      Core.reqAnch ∉ c.acceptedRequests) :=
  ⟨⟨by decide, rfl, by decide⟩,
   already_anchored_completed_without_candidate Core.streamsX [Core.reqAnch] 0
     Core.reqAnch Core.streamX (by decide) rfl (by decide)⟩

/-- C7: a leaf is emitted exactly when storing its anchor commit and
publishing its update both succeed; a failing leaf contributes no anchor;
and the persist step leaves every request row untouched whose id is not
accepted by an emitted candidate, so the requests of dropped leaves keep
their PROCESSING status. -/
theorem failed_leaf_dropped_others_emitted :
    (∀ (env : Core.EmitEnv) (proofCid : String) (leaves : List (Core.Candidate × String))
      (l : Core.Candidate × String) (acid : String),
      l ∈ leaves → env.store ⟨l.fst.cid, proofCid, l.snd⟩ = Except.ok acid →
      env.publish l.fst.streamId acid = Except.ok () →
      (l.fst, ⟨l.fst.anchorRequestId, proofCid, l.snd, acid⟩) ∈
        Core.emitAnchorCommits env proofCid leaves) ∧
    (∀ (env : Core.EmitEnv) (proofCid : String) (leaves : List (Core.Candidate × String))
      (pr : Core.Candidate × Core.Anchor),
      pr ∈ Core.emitAnchorCommits env proofCid leaves →
      ∃ l, l ∈ leaves ∧ ∃ acid, pr.fst = l.fst ∧
        env.store ⟨l.fst.cid, proofCid, l.snd⟩ = Except.ok acid ∧
        env.publish l.fst.streamId acid = Except.ok () ∧
        pr.snd = ⟨l.fst.anchorRequestId, proofCid, l.snd, acid⟩) ∧
    (∀ (emitted : List (Core.Candidate × Core.Anchor)) (db : List Core.Request)
      (k : Nat) (q : Core.Request),
      db[k]? = some q → q.id ∉ Core.acceptedIds (emitted.map Prod.fst) →
      (Core.persistAnchorResult emitted db)[k]? = some q) := by
  refine ⟨?_, ?_, ?_⟩
  · intro env proofCid leaves l acid hl hstore hpub
    unfold Core.emitAnchorCommits
    apply List.mem_filterMap.mpr
    refine ⟨l, hl, ?_⟩
    simp [hstore, hpub]
  · intro env proofCid leaves pr hpr
    unfold Core.emitAnchorCommits at hpr
    obtain ⟨l, hl, heq⟩ := List.mem_filterMap.mp hpr
    refine ⟨l, hl, ?_⟩
    rcases hstore : env.store ⟨l.fst.cid, proofCid, l.snd⟩ with e | acid
    · rw [hstore] at heq
      simp at heq
    · rw [hstore] at heq
      simp only [] at heq
      rcases hpub : env.publish l.fst.streamId acid with e | u
      · rw [hpub] at heq
        simp at heq
      · cases u
        rw [hpub] at heq
        injection heq with h2
        subst h2
        exact ⟨acid, rfl, rfl, hpub, rfl⟩
  · intro emitted db k q hk hid
    unfold Core.persistAnchorResult
    exact lem_setPinned_unmentioned _ _ k q
      (lem_updateRequests_unmentioned _ _ db k q hk hid) hid

/-- Witness for C7 at the four-leaf scenario: the store fails on the second
leaf and the publish fails on the fourth, so exactly the first and third
anchors are returned, and the second request row keeps its PROCESSING
status through the persist step. -/
theorem failed_leaf_witness :
    ((Core.emitAnchorCommits Core.emitEnvSel "p" (Core.merkleLeaves Core.cands4)).map
        (fun pr => pr.snd.requestId) = [1, 3]) ∧
    (Core.leafSa.fst, ⟨Core.leafSa.fst.anchorRequestId, "p", Core.leafSa.snd, "anchor-c1"⟩) ∈
      Core.emitAnchorCommits Core.emitEnvSel "p" (Core.merkleLeaves Core.cands4) ∧
    ((Core.persistAnchorResult
        (Core.emitAnchorCommits Core.emitEnvSel "p" (Core.merkleLeaves Core.cands4))
        Core.dbProc)[1]? = some (Core.mkReq 2 "c2" "sb" RequestStatus.PROCESSING 2)) :=
  ⟨by decide,
   failed_leaf_dropped_others_emitted.1 Core.emitEnvSel "p" (Core.merkleLeaves Core.cands4)
     Core.leafSa "anchor-c1" (by decide) rfl rfl,
   failed_leaf_dropped_others_emitted.2.2
     (Core.emitAnchorCommits Core.emitEnvSel "p" (Core.merkleLeaves Core.cands4))
     Core.dbProc 1 (Core.mkReq 2 "c2" "sb" RequestStatus.PROCESSING 2)
     (by decide) (by decide)⟩

/-- C5: candidate selection applies the anchor limit after stream-level
FIFO ordering: a positive limit keeps exactly the first L ordered
candidates, a zero limit keeps all; the ordering is sorted by earliest
accepted creation time (stream id tie-break) and permutes the raw
candidates; requests of candidates beyond the limit receive no selector
update and are accepted by no kept candidate, so their rows keep their
READY status; and in the eight-stream scenario with limit four two cycles
anchor four then the remaining four requests, leaving zero READY rows. -/
theorem anchor_limit_applied_after_fifo_order :
    (∀ (streams : String → Option Core.Stream) (reqs : List Core.Request) (L : Nat),
      0 < L →
      (Core.findCandidates streams reqs L).fst =
        (Core.orderCandidates (Core.rawCandidates streams reqs)).take L) ∧
    (∀ (streams : String → Option Core.Stream) (reqs : List Core.Request),
      (Core.findCandidates streams reqs 0).fst =
        Core.orderCandidates (Core.rawCandidates streams reqs)) ∧
    (∀ (streams : String → Option Core.Stream) (reqs : List Core.Request),
      List.Sorted Core.candLE (Core.orderCandidates (Core.rawCandidates streams reqs)) ∧
      (Core.orderCandidates (Core.rawCandidates streams reqs)).Perm
        (Core.rawCandidates streams reqs)) ∧
    (∀ (streams : String → Option Core.Stream) (reqs : List Core.Request) (L : Nat)
      (c : Core.Candidate) (q : Core.Request),
      (reqs.map Core.Request.id).Nodup →
      c ∈ Core.orderCandidates (Core.rawCandidates streams reqs) →
      c ∉ (Core.findCandidates streams reqs L).fst →
      q ∈ c.acceptedRequests →
      q.id ∉ (Core.selectorUpdates streams reqs).map Prod.fst ∧
      q.id ∉ Core.acceptedIds (Core.findCandidates streams reqs L).fst) ∧
    (Core.countByStatus RequestStatus.COMPLETED
        (Core.runCycle Core.cfg8 Core.env8 Core.db8).db = 4 ∧
      Core.countByStatus RequestStatus.READY
        (Core.runCycle Core.cfg8 Core.env8 Core.db8).db = 4 ∧
      Core.countByStatus RequestStatus.COMPLETED
        (Core.runCycle Core.cfg8 Core.env8
          (Core.runCycle Core.cfg8 Core.env8 Core.db8).db).db = 8 ∧
      Core.countByStatus RequestStatus.READY
        (Core.runCycle Core.cfg8 Core.env8
          (Core.runCycle Core.cfg8 Core.env8 Core.db8).db).db = 0) := by
  refine ⟨?_, ?_, ?_, ?_, ?_⟩
  · intro streams reqs L hL
    unfold Core.findCandidates Core.applyLimit
    rw [if_neg (by omega)]
  · intro streams reqs
    unfold Core.findCandidates Core.applyLimit
    rw [if_pos rfl]
  · intro streams reqs
    exact ⟨List.sorted_insertionSort Core.candLE _, List.perm_insertionSort Core.candLE _⟩
  · intro streams reqs L c q hnodup hco hnk hq
    have hcraw : c ∈ Core.rawCandidates streams reqs :=
      (lem_mem_orderCandidates _ c).mp hco
    obtain ⟨hqr, hqs, s, hs, hfalse, hsome⟩ := lem_accepted_spec streams reqs c q hcraw hq
    constructor
    · intro hmem
      obtain ⟨u, hu, huid⟩ := List.mem_map.mp hmem
      obtain ⟨q2, hq2r, hq2id, hq2cond⟩ := lem_selectorUpdates_src streams reqs u hu
      have hqq : q2 = q :=
        List.inj_on_of_nodup_map hnodup hq2r hqr (by rw [hq2id, huid])
      subst hqq
      rcases hq2cond s (by rw [hqs]; exact hs) with h | h
      · rw [hfalse] at h
        exact Bool.noConfusion h
      · cases hopt : s.cidIndex q2.cid <;> rw [hopt] at h hsome <;> simp_all
    · intro hmem
      unfold Core.acceptedIds at hmem
      obtain ⟨idl, hidl, hmemid⟩ := List.mem_flatten.mp hmem
      obtain ⟨c2, hc2, rfl⟩ := List.mem_map.mp hidl
      obtain ⟨q2, hq2, hq2id⟩ := List.mem_map.mp hmemid
      have hc2raw := lem_mem_kept_raw streams reqs L c2 hc2
      obtain ⟨hq2r, hq2s, _⟩ := lem_accepted_spec streams reqs c2 q2 hc2raw hq2
      have hqq : q2 = q := List.inj_on_of_nodup_map hnodup hq2r hqr hq2id
      subst hqq
      have hc2o : c2 ∈ Core.orderCandidates (Core.rawCandidates streams reqs) :=
        lem_mem_applyLimit L _ c2 hc2
      have heq : c = c2 :=
        List.inj_on_of_nodup_map (lem_ordered_streamIds_nodup streams reqs) hco hc2o
          (by rw [← hqs]; exact hq2s)
      exact hnk (by rw [heq]; exact hc2)
  · exact ⟨by decide, by decide, by decide, by decide⟩

/-- Witness for C5: with limit four the kept candidates are the first four
of the ordered list, and the fifth-stream candidate is cut off, its request
receiving no update and belonging to no kept candidate. -/
theorem anchor_limit_witness :
    (0 < 4 ∧
      (Core.findCandidates Core.streams8 Core.db8 4).fst =
        (Core.orderCandidates (Core.rawCandidates Core.streams8 Core.db8)).take 4) ∧
    ((Core.db8.map Core.Request.id).Nodup ∧
      Core.candSe ∈ Core.orderCandidates (Core.rawCandidates Core.streams8 Core.db8) ∧
      Core.candSe ∉ (Core.findCandidates Core.streams8 Core.db8 4).fst ∧
      Core.mkReq 5 "c5" "se" RequestStatus.PENDING 5 ∈ Core.candSe.acceptedRequests) ∧
    ((Core.mkReq 5 "c5" "se" RequestStatus.PENDING 5).id ∉
        (Core.selectorUpdates Core.streams8 Core.db8).map Prod.fst ∧
      (Core.mkReq 5 "c5" "se" RequestStatus.PENDING 5).id ∉
        Core.acceptedIds (Core.findCandidates Core.streams8 Core.db8 4).fst) :=
  ⟨⟨by decide, anchor_limit_applied_after_fifo_order.1 Core.streams8 Core.db8 4 (by decide)⟩,
   ⟨by decide, by decide, by decide, by decide⟩,
   anchor_limit_applied_after_fifo_order.2.2.2.1 Core.streams8 Core.db8 4 Core.candSe
     (Core.mkReq 5 "c5" "se" RequestStatus.PENDING 5)
     (by decide) (by decide) (by decide) (by decide)⟩

/-! ## Transaction failure lemmas -/

theorem lem_singleStream_cidIndex (x : String) :
    (Core.singleStream x).cidIndex x = some 0 := by
  simp [Core.singleStream, Core.Stream.cidIndex, List.findIdx?_cons]

theorem lem_singleStream_anchorPositions (x : String) :
    (Core.singleStream x).anchorPositions = [] := by
  simp [Core.singleStream, Core.Stream.anchorPositions, List.range_succ]

theorem lem_singleStream_not_anchored (x y : String) :
    (Core.singleStream x).alreadyAnchored y = false := by
  unfold Core.Stream.alreadyAnchored
  rw [lem_singleStream_anchorPositions]
  split <;> simp

theorem lem_singleStream_inj (a b : String) (h : Core.singleStream a = Core.singleStream b) :
    a = b := by
  simpa [Core.singleStream] using h

theorem lem_raw_nonempty_of_single (streams : String → Option Core.Stream)
    (reqs : List Core.Request)
    (hs : ∀ q ∈ reqs, streams q.streamId = some (Core.singleStream q.cid))
    (hne : reqs ≠ []) :
    Core.rawCandidates streams reqs ≠ [] := by
  obtain ⟨r0, hr0⟩ : ∃ r0, r0 ∈ reqs := by
    cases reqs with
    | nil => exact absurd rfl hne
    | cons a l => exact ⟨a, by simp⟩
  have hsid := lem_mem_streamIds reqs r0 hr0
  have hsr0 := hs r0 hr0
  have hall : ∀ q ∈ Core.bucketOf reqs r0.streamId,
      (Core.singleStream r0.cid).alreadyAnchored q.cid = false ∧
      ((Core.singleStream r0.cid).cidIndex q.cid).isSome = true := by
    intro q hqb
    obtain ⟨hqr, hqsid⟩ := lem_bucketOf_spec reqs r0.streamId q hqb
    have hsq := hs q hqr
    rw [hqsid, hsr0] at hsq
    injection hsq with h2
    have hcid : q.cid = r0.cid := (lem_singleStream_inj r0.cid q.cid h2).symm
    rw [hcid]
    exact ⟨lem_singleStream_not_anchored _ _, by rw [lem_singleStream_cidIndex]; rfl⟩
  have haccne : ((Core.bucketOf reqs r0.streamId).filter
      (fun r => ! (Core.singleStream r0.cid).alreadyAnchored r.cid)).filter
      (fun r => ((Core.singleStream r0.cid).cidIndex r.cid).isSome) ≠ [] := by
    have hr0b := lem_mem_bucketOf reqs r0 hr0
    have h1 := hall r0 hr0b
    intro hnil
    have hmem : r0 ∈ ([] : List Core.Request) := by
      rw [← hnil]
      refine List.mem_filter.mpr ⟨List.mem_filter.mpr ⟨hr0b, ?_⟩, ?_⟩
      · simp [h1.1]
      · simp [h1.2]
    simp at hmem
  obtain ⟨c, hc⟩ := lem_processBucket_fst_spec streams r0.streamId
    (Core.bucketOf reqs r0.streamId) (Core.singleStream r0.cid) hsr0 haccne
  have hcm : c ∈ Core.rawCandidates streams reqs :=
    (lem_mem_rawCandidates streams reqs c).mpr ⟨r0.streamId, hsid, hc⟩
  intro hnil
  rw [hnil] at hcm
  simp at hcm

theorem lem_findAndMarkReady_all_pending (cfg : Core.CoreConfig) (db : List Core.Request)
    (hp : ∀ r ∈ db, r.status = RequestStatus.PENDING)
    (hdist : (db.map Core.Request.streamId).Nodup)
    (hmin : cfg.minStreamCount ≤ db.length)
    (hlim : cfg.streamLimit = 0) :
    (Core.findAndMarkReady cfg db).fst =
      (Core.sortByCreated db).map
        (fun r => { r with status := RequestStatus.READY, updatedAt := cfg.now }) := by
  have hpend : Core.findByStatus RequestStatus.PENDING db = db := by
    unfold Core.findByStatus
    exact List.filter_eq_self.mpr (fun r hr => by simp [hp r hr])
  have hperm : (Core.sortByCreated db).Perm db := List.perm_insertionSort _ _
  have hnodup2 : ((Core.sortByCreated db).map Core.Request.streamId).Nodup :=
    (hperm.map Core.Request.streamId).nodup_iff.mpr hdist
  have hSIds : Core.streamIds (Core.sortByCreated db)
      = (Core.sortByCreated db).map Core.Request.streamId :=
    lem_streamIds_of_nodup _ hnodup2
  have hlen : cfg.minStreamCount ≤ (Core.streamIds (Core.sortByCreated db)).length := by
    rw [hSIds, List.length_map, hperm.length_eq]
    exact hmin
  simp only [Core.findAndMarkReady, hpend, hlim, reduceIte]
  rw [if_pos hlen]
  rw [List.filter_eq_self.mpr (fun r hr => by
    simp [lem_mem_streamIds (Core.sortByCreated db) r hr])]
  rw [List.filter_eq_nil_iff.mpr (fun r hr => by simp [hp r hr])]
  simp

/-- C1: if the blockchain client rejects every transaction with the
message Failed to send transaction!, then a cycle over a non-empty batch
of PENDING requests on pairwise distinct resolvable streams (meeting the
minimum stream count, with unlimited promotion) surfaces exactly that
error, rolls the table back, and leaves every request PENDING. -/
theorem tx_failure_surfaces_and_requests_stay_pending
    (cfg : Core.CoreConfig) (env : Core.CoreEnv) (db : List Core.Request)
    (hne : db ≠ [])
    (hp : ∀ r ∈ db, r.status = RequestStatus.PENDING)
    (hs : ∀ r ∈ db, env.streams r.streamId = some (Core.singleStream r.cid))
    (hdist : (db.map Core.Request.streamId).Nodup)
    (hmin : cfg.minStreamCount ≤ db.length)
    (hlim : cfg.streamLimit = 0)
    (htx : ∀ root, env.sendTransaction root = Except.error "Failed to send transaction!") :
    (Core.runCycle cfg env db).outcome = Except.error "Failed to send transaction!" ∧
    (Core.runCycle cfg env db).db = db ∧
    ∀ r ∈ (Core.runCycle cfg env db).db, r.status = RequestStatus.PENDING := by
  have hready : Core.findByStatus RequestStatus.READY db = [] := by
    unfold Core.findByStatus
    exact List.filter_eq_nil_iff.mpr (fun r hr => by simp [hp r hr])
  have hfmr := lem_findAndMarkReady_all_pending cfg db hp hdist hmin hlim
  have hperm : (Core.sortByCreated db).Perm db := List.perm_insertionSort _ _
  have hsortne : Core.sortByCreated db ≠ [] := by
    intro h0
    exact hne (((h0 ▸ hperm).symm).eq_nil)
  have hbatchne : (Core.findAndMarkReady cfg db).fst ≠ [] := by
    rw [hfmr]
    simpa using hsortne
  have hbatchstreams : ∀ q ∈ (Core.findAndMarkReady cfg db).fst,
      env.streams q.streamId = some (Core.singleStream q.cid) := by
    rw [hfmr]
    intro q hq
    obtain ⟨r, hr, rfl⟩ := List.mem_map.mp hq
    exact hs r (hperm.mem_iff.mp hr)
  have hraw := lem_raw_nonempty_of_single env.streams _ hbatchstreams hbatchne
  have hkept : (Core.findCandidates env.streams
      (Core.findAndMarkReady cfg db).fst cfg.anchorLimit).fst ≠ [] := by
    unfold Core.findCandidates Core.applyLimit
    have hone : Core.orderCandidates
        (Core.rawCandidates env.streams (Core.findAndMarkReady cfg db).fst) ≠ [] := by
      intro h0
      have hperm2 : Core.orderCandidates
          (Core.rawCandidates env.streams (Core.findAndMarkReady cfg db).fst) |>.Perm
          (Core.rawCandidates env.streams (Core.findAndMarkReady cfg db).fst) :=
        List.perm_insertionSort Core.candLE _
      rw [h0] at hperm2
      exact hraw (hperm2.symm.eq_nil)
    split
    · exact hone
    · intro h0
      rcases List.take_eq_nil_iff.mp h0 with h | h
      · omega
      · exact hone h
  have hA : Core.anchorRequests cfg env db = Except.error "Failed to send transaction!" := by
    simp only [Core.anchorRequests, hready, reduceIte]
    rw [if_neg hbatchne, if_neg hkept, htx]
  unfold Core.runCycle
  rw [hA]
  exact ⟨rfl, rfl, hp⟩

/-- Witness for C1 at the four-request scenario with the always-rejecting
blockchain client. -/
theorem tx_failure_scenario_witness :
    (Core.dbTx ≠ [] ∧ (∀ r ∈ Core.dbTx, r.status = RequestStatus.PENDING) ∧
      (Core.dbTx.map Core.Request.streamId).Nodup ∧
      Core.cfg8.minStreamCount ≤ Core.dbTx.length ∧ Core.cfg8.streamLimit = 0) ∧
    ((Core.runCycle Core.cfg8 Core.envTxFail Core.dbTx).outcome =
        Except.error "Failed to send transaction!" ∧
      (Core.runCycle Core.cfg8 Core.envTxFail Core.dbTx).db = Core.dbTx ∧
      ∀ r ∈ (Core.runCycle Core.cfg8 Core.envTxFail Core.dbTx).db,
        r.status = RequestStatus.PENDING) :=
  ⟨⟨by decide, by decide, by decide, by decide, rfl⟩,
   tx_failure_surfaces_and_requests_stay_pending Core.cfg8 Core.envTxFail Core.dbTx
     (by decide) (by decide) (by decide) (by decide) (by decide) rfl
     (fun root => rfl)⟩
